import Mathlib

/-!
Verification development for the subtitle burn-in rendering pipeline.

The embedding is shallow: JavaScript numbers are modelled as rationals (`ℚ`);
optional TS fields become `Option`; code that throws returns `Except`/`Option`.
The main embedded sources are

* `src/utils/generatePng.ts` — `calculateSubtitleLayoutMetrics`,
  `splitSubtitleIntoWords`, `buildOverlayFilterComplex`;
* `src/server/lib/queue.ts` — the worker `processVideoExport`
  (temp-file lifecycle, batch loop, progress reporting), modelled as an
  explicit event trace with injectable faults;
* the tRPC `exportWithSubs` input schema (zod) — modelled as a parser from
  raw optional fields.
-/

namespace SwissSubtitles

/-- Word-level timestamp (interface `WordTimestamp`).  Field `endTime`
models the JS field `end` (a Lean keyword). -/
structure WordTimestamp where
  word : String
  start : ℚ
  endTime : ℚ
deriving DecidableEq

/-- A timed text cue (interface `Subtitle`); the optional `speaker` field is
omitted as no embedded code reads it. -/
structure Subtitle where
  id : String
  text : String
  start : ℚ
  endTime : ℚ
  words : Option (List WordTimestamp)
deriving DecidableEq

/-- The value produced by `splitSubtitleIntoWords`: TS type
`Subtitle & \x7b originalId: string \x7d`. -/
structure SubCue where
  id : String
  originalId : String
  text : String
  start : ℚ
  endTime : ℚ
  words : Option (List WordTimestamp)
deriving DecidableEq

/-- Style descriptor (interface `SubtitleStyle` in VideoPlayerWithKonva).
`position` is kept as a string exactly as the TS union of string literals;
`customX`/`customY` are `none` when the field is absent or fails the
`typeof x === 'number'` runtime guard; `effectType` is `none` when absent. -/
structure SubtitleStyle where
  fontFamily : String
  fontSize : ℚ
  textColor : String
  bgColor : String
  bgOpacity : ℚ
  borderRadius : ℚ
  position : String
  customX : Option ℚ
  customY : Option ℚ
  effectType : Option String
deriving DecidableEq

/-- `Array.prototype.join(' ')` on a list of strings. -/
def joinSp : List String → String
  | [] => ""
  | [w] => w
  | w :: ws => w ++ " " ++ joinSp ws

/-- Indexed map, modelling JS `array.map((x, index) => ...)`; auxiliary
function carrying the running index. -/
def mapWithIndexAux (f : Nat → α → β) : Nat → List α → List β
  | _, [] => []
  | n, a :: as => f n a :: mapWithIndexAux f (n + 1) as

/-- JS `array.map((x, index) => ...)`. -/
def mapWithIndex (f : Nat → α → β) (l : List α) : List β :=
  mapWithIndexAux f 0 l

/-- JS `String.prototype.trim()`, written over the character list so that
its properties are provable.  (Lean's `Char.isWhitespace` stands for the
JS `\s` class.) -/
def jsTrim (s : String) : String :=
  String.mk (((s.toList.dropWhile Char.isWhitespace).reverse.dropWhile
    Char.isWhitespace).reverse)

/-- Maximal non-whitespace runs of a character list; models
`str.split(/\s+/)` for a string with no leading/trailing whitespace.
`cur` is the (reversed) run being accumulated. -/
def wsTokensGo (cur : List Char) : List Char → List String
  | [] => if cur.isEmpty then [] else [String.mk cur.reverse]
  | c :: cs =>
    if c.isWhitespace then
      if cur.isEmpty then wsTokensGo [] cs
      else String.mk cur.reverse :: wsTokensGo [] cs
    else wsTokensGo (c :: cur) cs

/-- JS `text.trim().split(/\s+/)` (part_004 line 329).  Note the JS quirk:
`''.split(/\s+/)` is `['']`, so the result is never empty. -/
def jsSplitWhitespace (s : String) : List String :=
  let t := jsTrim s
  if t = "" then [""] else wsTokensGo [] t.toList

/-- The `\x7b...subtitle, originalId: subtitle.id\x7d` spread used by both
fallback branches of `splitSubtitleIntoWords`. -/
def originalSubCue (subtitle : Subtitle) : SubCue :=
  { id := subtitle.id
    originalId := subtitle.id
    text := subtitle.text
    start := subtitle.start
    endTime := subtitle.endTime
    words := subtitle.words }

/-- One iteration of the `cumulativePopOn` loop body
(part_004 lines 302–321): returns the pushed SubCue, or `none` when the
`finalEndTime > startTime` guard fails (or `i` is out of range). -/
def cumulativeStep (subtitle : Subtitle) (ws : List WordTimestamp) (i : Nat) :
    Option SubCue :=
  match ws[i]? with
  | none => none
  | some currentWord =>
    let nextWord := ws[i+1]?
    let textToShow := joinSp ((ws.take (i + 1)).map (·.word))
    let startTime := currentWord.start
    let endTime :=
      match nextWord with
      | some nw => nw.start
      | none => subtitle.endTime
    let finalEndTime := min subtitle.endTime (max (startTime + 1/1000) endTime)
    if startTime < finalEndTime then
      some { id := subtitle.id ++ "-cumulative-" ++ toString i
             originalId := subtitle.id
             text := textToShow
             start := startTime
             endTime := finalEndTime
             words := some (ws.take (i + 1)) }
    else none

/-- The `cumulativePopOn` branch for a cue with word timestamps
(part_004 lines 300–327), including the never-empty fallback. -/
def cumulativeSubsOf (subtitle : Subtitle) (ws : List WordTimestamp) :
    List SubCue :=
  let cumulativeSubs := (List.range ws.length).filterMap (cumulativeStep subtitle ws)
  if cumulativeSubs.isEmpty then [originalSubCue subtitle] else cumulativeSubs

/-- The degraded even-time-split path of `splitSubtitleIntoWords`
(part_004 lines 329–364), taken when `cue.words` is absent/empty or the
effect does not use them. -/
def evenSplitFallback (subtitle : Subtitle) (effectType : String) : List SubCue :=
  let words := jsSplitWhitespace subtitle.text
  if words.isEmpty then [originalSubCue subtitle]
  else
    let totalDuration := subtitle.endTime - subtitle.start
    let wordDuration := if 0 < totalDuration then totalDuration / words.length else 0
    if effectType = "cumulativePopOn" then
      mapWithIndex (fun index _ =>
        { id := subtitle.id ++ "-word-" ++ toString index
          originalId := subtitle.id
          text := joinSp (words.take (index + 1))
          start := subtitle.start + index * wordDuration
          endTime :=
            if index = words.length - 1 then subtitle.endTime
            else subtitle.start + (index + 1) * wordDuration
          words := none }) words
    else if effectType = "wordByWord" then
      mapWithIndex (fun index word =>
        { id := subtitle.id ++ "-word-" ++ toString index
          originalId := subtitle.id
          text := word
          start := subtitle.start + index * wordDuration
          endTime := subtitle.start + (index + 1) * wordDuration
          words := none }) words
    else [originalSubCue subtitle]

/-- `splitSubtitleIntoWords` (part_004 lines 281–365). -/
def splitSubtitleIntoWords (subtitle : Subtitle) (effectType : String) :
    List SubCue :=
  match subtitle.words with
  | some ws =>
    if effectType = "wordByWord" ∧ ws ≠ [] then
      mapWithIndex (fun index wordData =>
        { id := subtitle.id ++ "-word-" ++ toString index
          originalId := subtitle.id
          text := wordData.word
          start := wordData.start
          endTime := wordData.endTime
          words := some [wordData] }) ws
    else if effectType = "cumulativePopOn" ∧ ws ≠ [] then
      cumulativeSubsOf subtitle ws
    else evenSplitFallback subtitle effectType
  | none => evenSplitFallback subtitle effectType

/-! ### Text Layout Engine (`calculateSubtitleLayoutMetrics`, part_004 79–177)

Canvas text measurement is I/O (it depends on registered font files), so the
configured context's `measureText(s).width` is abstracted as a parameter
`measure : String → ℚ`, and the success of `loadAndRegisterFont` as
`fontOk : String → Bool`.  Everything else follows the source line by line. -/

/-- `LayoutMetrics` (part_004 lines 10–23); `lineMetrics` entries are
(width, height) pairs. -/
structure LayoutMetrics where
  lines : List String
  lineMetrics : List (ℚ × ℚ)
  textWidth : ℚ
  textHeight : ℚ
  boxWidth : ℚ
  boxHeight : ℚ
  fontSize : ℚ
  fontFamily : String
  lineHeight : ℚ
  paddingScaled : ℚ
  scaleFactor : ℚ
  radius : ℚ
deriving DecidableEq

/-- JS `Math.round` (half away from zero towards +∞): `floor(q + 1/2)`. -/
def jsRound (q : ℚ) : ℚ := ((q + 1/2).floor : ℤ)

/-- JS `q % 2 === 0` on a (finite) double: true exactly when `q / 2` is an
integer, i.e. `q` is an even integer. -/
def jsIsMultipleOfTwo (q : ℚ) : Bool := (q / 2).den = 1

/-- The string `replace(/^[\x27"]|[\x27"]$/g, "")`: strip one leading and one
trailing quote character. -/
def stripOuterQuotes (s : String) : String :=
  let s1 := if s.startsWith "\x27" ∨ s.startsWith "\"" then s.drop 1 else s
  if s1.endsWith "\x27" ∨ s1.endsWith "\"" then s1.dropRight 1 else s1

/-- `text.split(/\\N|\\n|\n/)` (part_004 line 120): the three separators are
disjoint, so sequential `splitOn` matches the regex alternation. -/
def splitManualBreaks (text : String) : List String :=
  ((text.splitOn "\\N").flatMap (·.splitOn "\\n")).flatMap
    (·.splitOn (String.mk [Char.ofNat 10]))

/-- One step of the greedy wrap loop (part_004 lines 124–134): state is
(emitted lines, currentLine). -/
def wrapStep (measure : String → ℚ) (maxTextWidth : ℚ)
    (st : List String × String) (word : String) : List String × String :=
  let testLine := if st.2 = "" then word else st.2 ++ " " ++ word
  if measure testLine > maxTextWidth ∧ st.2 ≠ "" then (st.1 ++ [st.2], word)
  else (st.1, testLine)

/-- Wrap one raw line: `rawLine.split(' ')` then the greedy loop, emitting
the trailing `currentLine` when non-empty (part_004 lines 122–136). -/
def wrapRawLine (measure : String → ℚ) (maxTextWidth : ℚ) (rawLine : String) :
    List String :=
  let words := rawLine.splitOn " "
  let st := words.foldl (wrapStep measure maxTextWidth) ([], "")
  if st.2 = "" then st.1 else st.1 ++ [st.2]

/-- `calculateSubtitleLayoutMetrics` (part_004 lines 79–177).  Returns `none`
in the degenerate case `lines = []` (all-whitespace text), where the JS code
computes `Math.max()` = `-Infinity`, which has no rational counterpart;
every other path is total. -/
def calculateSubtitleLayoutMetrics (measure : String → ℚ)
    (fontOk : String → Bool) (text : String) (style : SubtitleStyle)
    (videoWidth videoHeight : ℚ) : Option LayoutMetrics :=
  let padding : ℚ := 24
  let scaleFactor := (videoHeight / 500) / (3/2)
  let fontSize := max 1 (jsRound (style.fontSize * scaleFactor))
  let fontFamily0 :=
    stripOuterQuotes ((((style.fontFamily.splitOn ",").headD "").trim))
  let fontFamilyToUse := if fontOk fontFamily0 then fontFamily0 else "Arial"
  let lineHeight := fontSize * (3/2)
  let maxTextWidth := videoWidth * (4/5)
  let rawLines := splitManualBreaks text
  let lines := rawLines.flatMap (wrapRawLine measure maxTextWidth)
  let lineMetrics := lines.map (fun line =>
    (min (measure line) maxTextWidth, lineHeight))
  match (lineMetrics.map (·.1)).max? with
  | none => none
  | some textWidth =>
    let textHeight := (lines.length : ℚ) * lineHeight
    let paddingScaled := padding * scaleFactor
    let boxWidth := textWidth + paddingScaled * 2
    let boxHeight := textHeight + paddingScaled * 2
    let radius := style.borderRadius * scaleFactor
    let finalBoxWidth := if jsIsMultipleOfTwo boxWidth then boxWidth else boxWidth + 1
    let finalBoxHeight := if jsIsMultipleOfTwo boxHeight then boxHeight else boxHeight + 1
    some { lines := lines
           lineMetrics := lineMetrics
           textWidth := textWidth
           textHeight := textHeight
           boxWidth := finalBoxWidth
           boxHeight := finalBoxHeight
           fontSize := fontSize
           fontFamily := fontFamilyToUse
           lineHeight := lineHeight
           paddingScaled := paddingScaled
           scaleFactor := scaleFactor
           radius := radius }

/-! ### Composition Graph Builder (`buildOverlayFilterComplex`, part_004 370–419)

JS template-literal number formatting (`${sub.start}` on a double) is
abstracted as a parameter `fmt : ℚ → String`. -/

/-- Overlay coordinates for one stage (part_004 lines 387–409).  The custom
branch fires only when `position === 'custom'` and both coordinates pass the
`typeof === 'number'` guard; otherwise the horizontally centred default with
the vertical position from `style.position` (bottom is the `default:` arm). -/
def overlayXY (fmt : ℚ → String) (style : SubtitleStyle) (videoHeight : ℚ) :
    String × String :=
  match style.position, style.customX, style.customY with
  | "custom", some cx, some cy =>
    let scaleFactor := videoHeight / 500
    (fmt (jsRound (cx * scaleFactor)), fmt (jsRound (cy * scaleFactor)))
  | pos, _, _ =>
    ("(main_w-overlay_w)/2",
     if pos = "top" then "50"
     else if pos = "middle" then "(main_h-overlay_h)/2"
     else "main_h-overlay_h-50")

/-- The input-stream tag consumed by overlay stage `i`: the base video
stream `0:v` for stage 0, and the previous stage's output label `v(i)`
otherwise (part_004 lines 382, 384, 415). -/
def overlayTag : Nat → String
  | 0 => "0:v"
  | n + 1 => "v" ++ toString (n + 1)

/-- The middle of one overlay line (part_004 line 412), between the leading
input tag and the trailing output label. -/
def stageBody (fmt : ℚ → String) (style : SubtitleStyle) (videoHeight : ℚ)
    (index : Nat) (sub : Subtitle) : String :=
  "[" ++ toString (index + 1) ++ ":v]overlay=" ++
    (overlayXY fmt style videoHeight).1 ++ ":" ++
    (overlayXY fmt style videoHeight).2 ++
    ":enable=\x27between(t," ++ fmt sub.start ++ "," ++ fmt sub.endTime ++ ")\x27"

/-- One full overlay line (part_004 lines 411–413). -/
def overlayStage (fmt : ℚ → String) (style : SubtitleStyle) (videoHeight : ℚ)
    (prevTag : String) (index : Nat) (sub : Subtitle) : String :=
  "[" ++ prevTag ++ "]" ++ stageBody fmt style videoHeight index sub ++
    "[v" ++ toString (index + 1) ++ "]"

/-- The `subtitles.forEach` loop (part_004 lines 384–416), carrying
`index` and `prevTag`. -/
def buildOverlaysGo (fmt : ℚ → String) (style : SubtitleStyle)
    (videoHeight : ℚ) : Nat → String → List Subtitle → List String
  | _, _, [] => []
  | index, prevTag, sub :: rest =>
    overlayStage fmt style videoHeight prevTag index sub ::
      buildOverlaysGo fmt style videoHeight (index + 1)
        ("v" ++ toString (index + 1)) rest

/-- The overlay lines with their chained tags in closed form. -/
def stagesOf (fmt : ℚ → String) (style : SubtitleStyle) (videoHeight : ℚ)
    (subtitles : List Subtitle) : List String :=
  mapWithIndex (fun i sub => overlayStage fmt style videoHeight (overlayTag i) i sub)
    subtitles

/-- `buildOverlayFilterComplex` (part_004 lines 370–419); the `throw` is an
`Except.error`. -/
def buildOverlayFilterComplex (fmt : ℚ → String) (subtitles : List Subtitle)
    (pngPaths : List String) (style : SubtitleStyle)
    (videoWidth videoHeight : ℚ) : Except String String :=
  if subtitles.length ≠ pngPaths.length then
    Except.error "Number of subtitles and PNG paths must match"
  else
    Except.ok (String.intercalate ";"
      (buildOverlaysGo fmt style videoHeight 0 "0:v" subtitles))

/-- Whether a builder call succeeded (no throw). -/
def buildOk : Except String String → Bool
  | Except.ok _ => true
  | Except.error _ => false

/-! ### Worker model (`processVideoExport`, queue.ts lines 252–381)

The job body is modelled as an explicit trace of temp-file and progress
events.  External failures (a `renderSubtitleToPng` rejection, a
`runFfmpegBatch` rejection) are injected through a `JobEnv`.  A rendered PNG
is materialised by the promise that succeeds (`tmp.file` + `writeFile` at
the end of `renderSubtitleToPng`); a failing promise is taken to fail before
its temp file is allocated, the most favourable reading for cleanup. -/

/-- Temporary files a job can create: the input video copy, the rasterized
PNG of (sub)cue `i`, and the output video of batch `k`. -/
inductive TmpPath where
  | input : TmpPath
  | png : Nat → TmpPath
  | batch : Nat → TmpPath
deriving DecidableEq

/-- Observable events of one job execution. -/
inductive Ev where
  | create : TmpPath → Ev
  | delete : TmpPath → Ev
  | ffmpegRun : TmpPath → TmpPath → Ev
  | progress : ℚ → Ev
deriving DecidableEq

/-- Fault injection and external progress callbacks for one job run. -/
structure JobEnv where
  pngFails : Nat → Bool
  batchFails : Nat → Bool
  batchProgress : Nat → List ℚ

/-- `BATCH_SIZE` (queue.ts line 317). -/
def BATCH_SIZE : Nat := 200

/-- `Math.ceil(M / BATCH_SIZE)` — also the exact number of iterations of
the `for (i = 0; i < M; i += BATCH_SIZE)` loop (queue.ts lines 322, 325). -/
def totalBatchesOf (M : Nat) : Nat := (M + (BATCH_SIZE - 1)) / BATCH_SIZE

/-- `processedSubsForFfmpeg` (queue.ts lines 279–305): the original cues for
`effectType === 'none'`, otherwise every cue expanded by
`splitSubtitleIntoWords`.  The PNG render requests are pushed in the same
loop iterations, so their count always equals this list's length. -/
def SubCue.toSubtitle (c : SubCue) : Subtitle :=
  { id := c.id, text := c.text, start := c.start, endTime := c.endTime
    words := c.words }

/-- The expanded cue list handed to the batch loop. -/
def expandedSubs (subs : List Subtitle) (effectType : String) : List Subtitle :=
  if effectType = "none" then subs
  else subs.flatMap (fun sub =>
    (splitSubtitleIntoWords sub effectType).map SubCue.toSubtitle)

/-- The batch loop (queue.ts lines 325–357), one recursive step per batch
index `k` with `remaining` batches still to run.  Events of iteration `k`:
the creation of the batch output temp file, the ffmpeg invocation reading
the current video (input copy for batch 0, batch `k-1`'s output otherwise),
the mapped progress callbacks, then — only on success — the cleanup of the
superseded previous output.  A failing batch aborts the loop; the returned
`Option Nat` is the index of the failing batch, `none` when all succeeded. -/
def runBatchesGo (env : JobEnv) (weight : ℚ) :
    Nat → Nat → List Ev × Option Nat
  | _, 0 => ([], none)
  | k, remaining + 1 =>
    let inPath := if k = 0 then TmpPath.input else TmpPath.batch (k - 1)
    let startEvs := [Ev.create (TmpPath.batch k), Ev.ffmpegRun inPath (TmpPath.batch k)]
    if env.batchFails k then (startEvs, some k)
    else
      -- `progress.percent && progress.percent >= 0` (queue.ts 233): a zero
      -- percent is falsy in JS and reports nothing.
      let progEvs := ((env.batchProgress k).filter
          (fun p => decide (p ≠ 0) && decide (0 ≤ p))).map
        (fun p => Ev.progress (min 100 ((k : ℚ) * weight + p * (weight / 100))))
      let cleanupPrev :=
        if k = 0 then [] else [Ev.delete (TmpPath.batch (k - 1))]
      let rest := runBatchesGo env weight (k + 1) remaining
      (startEvs ++ progEvs ++ cleanupPrev ++ rest.1, rest.2)

/-- Full trace of one `processVideoExport` run (queue.ts lines 252–381)
together with its success flag. -/
def processVideoExport (env : JobEnv) (subs : List Subtitle)
    (style : SubtitleStyle) : List Ev × Bool :=
  let effectType := style.effectType.getD "none"
  let processed := expandedSubs subs effectType
  let N := processed.length
  -- all PNG promises are started before `Promise.all` settles; each
  -- successful one created a temp PNG on disk
  let pngCreates := (List.range N).filterMap (fun i =>
    if env.pngFails i then none else some (Ev.create (TmpPath.png i)))
  let pngAllOk := (List.range N).all (fun i => !env.pngFails i)
  let base := Ev.create TmpPath.input :: Ev.progress 0 :: pngCreates
  if !pngAllOk then
    -- `Promise.all` rejected: `allPngPaths` was never populated (queue.ts
    -- 308–313), so the `finally` block (366–380) deletes only the input.
    (base ++ [Ev.delete TmpPath.input], false)
  else
    let total := totalBatchesOf N
    let weight : ℚ := 100 / (total : ℚ)
    let batches := runBatchesGo env weight 0 total
    -- `previousBatchTmpFile` at `finally` time: output of the last batch
    -- whose run succeeded (assigned only after `runFfmpegBatch` resolves).
    let previousIdx : Option Nat :=
      match batches.2 with
      | some k => if k = 0 then none else some (k - 1)
      | none => if total = 0 then none else some (total - 1)
    let success100 := if batches.2.isNone then [Ev.progress 100] else []
    let finallyEvs :=
      Ev.delete TmpPath.input ::
        ((match previousIdx with
          | some j => [Ev.delete (TmpPath.batch j)]
          | none => []) ++
         (List.range N).map (fun i => Ev.delete (TmpPath.png i)))
    (base ++ batches.1 ++ success100 ++ finallyEvs, batches.2.isNone)

/-- Paths created during a trace. -/
def createdPaths (evs : List Ev) : List TmpPath :=
  evs.filterMap (fun e => match e with | Ev.create p => some p | _ => none)

/-- Paths deleted during a trace. -/
def deletedPaths (evs : List Ev) : List TmpPath :=
  evs.filterMap (fun e => match e with | Ev.delete p => some p | _ => none)

/-- Temp files still on disk after the job finished. -/
def leakedPaths (evs : List Ev) : List TmpPath :=
  (createdPaths evs).filter (fun p => !(deletedPaths evs).contains p)

/-- The ffmpeg invocations of a trace as (input video, output video) pairs. -/
def runsOf (evs : List Ev) : List (TmpPath × TmpPath) :=
  evs.filterMap (fun e => match e with | Ev.ffmpegRun a b => some (a, b) | _ => none)

/-- The values reported to `job.updateProgress`, in order. -/
def progsOf (evs : List Ev) : List ℚ :=
  evs.filterMap (fun e => match e with | Ev.progress q => some q | _ => none)

/-! ### Submit-export input schema (part_000 lines 346–372)

The zod schema is modelled as a parser from raw inputs whose fields are
`Option`s (`none` = absent or of the wrong type, which zod treats alike). -/

/-- Raw `style` object as received. -/
structure RawStyleInput where
  fontFamily : Option String
  fontSize : Option ℚ
  textColor : Option String
  bgColor : Option String
  bgOpacity : Option ℚ
  borderRadius : Option ℚ
  position : Option String
  customX : Option ℚ
  customY : Option ℚ
  effectType : Option String
deriving DecidableEq

/-- Raw word-timestamp object. -/
structure RawWordInput where
  word : Option String
  start : Option ℚ
  endTime : Option ℚ
deriving DecidableEq

/-- Raw subtitle object. -/
structure RawSubtitleInput where
  id : Option String
  text : Option String
  start : Option ℚ
  endTime : Option ℚ
  words : Option (List RawWordInput)
deriving DecidableEq

/-- The parsed export request. -/
structure ExportInput where
  videoB64 : String
  subs : List Subtitle
  style : SubtitleStyle
deriving DecidableEq

/-- The `style: z.object(...)` schema (part_000 lines 360–371): all fields
except `customX`, `customY`, `effectType` are required; `position` must be
one of the four literals; `customX`/`customY` are optional with **no**
relation to `position`; `effectType` defaults to `'none'` when absent. -/
def parseStyle (r : RawStyleInput) : Option SubtitleStyle := do
  let fontFamily ← r.fontFamily
  let fontSize ← r.fontSize
  let textColor ← r.textColor
  let bgColor ← r.bgColor
  let bgOpacity ← r.bgOpacity
  let borderRadius ← r.borderRadius
  let position ← r.position
  if position = "bottom" ∨ position = "top" ∨ position = "middle" ∨
      position = "custom" then
    let effectType ←
      match r.effectType with
      | none => some "none"
      | some e =>
        if e = "none" ∨ e = "cumulativePopOn" ∨ e = "wordByWord" then some e
        else none
    some { fontFamily := fontFamily, fontSize := fontSize
           textColor := textColor, bgColor := bgColor, bgOpacity := bgOpacity
           borderRadius := borderRadius, position := position
           customX := r.customX, customY := r.customY
           effectType := some effectType }
  else none

/-- The word schema (part_000 lines 354–358). -/
def parseWord (r : RawWordInput) : Option WordTimestamp := do
  let word ← r.word
  let start ← r.start
  let endTime ← r.endTime
  some { word := word, start := start, endTime := endTime }

/-- The subtitle schema (part_000 lines 349–359); `words` is optional, but a
present array must parse element-wise. -/
def parseSubtitle (r : RawSubtitleInput) : Option Subtitle := do
  let id ← r.id
  let text ← r.text
  let start ← r.start
  let endTime ← r.endTime
  let words ←
    match r.words with
    | none => some none
    | some ws => (ws.mapM parseWord).map some
  some { id := id, text := text, start := start, endTime := endTime
         words := words }

/-- The whole `exportWithSubs` input schema (part_000 lines 347–372). -/
def parseExportInput (videoB64 : Option String)
    (subs : Option (List RawSubtitleInput)) (style : Option RawStyleInput) :
    Option ExportInput := do
  let videoB64 ← videoB64
  let subs ← subs
  let parsedSubs ← subs.mapM parseSubtitle
  let style ← style
  let parsedStyle ← parseStyle style
  some { videoB64 := videoB64, subs := parsedSubs, style := parsedStyle }

/-! ### Concrete inputs used by evaluations and witnesses -/

/-- A plain bottom-positioned style with no effect. -/
def styleBottom : SubtitleStyle :=
  { fontFamily := "Arial", fontSize := 16, textColor := "#fff"
    bgColor := "#000", bgOpacity := 1, borderRadius := 0
    position := "bottom", customX := none, customY := none, effectType := none }

/-- A measurement function returning a fractional width, as canvas
`measureText` does for essentially every real font. -/
def measC1 : String → ℚ := fun _ => 1/2

/-- A font registry in which every family loads. -/
def fontOkC1 : String → Bool := fun _ => true

/-- Two-word cue with word timestamps. -/
def wsC4 : List WordTimestamp := [⟨"a", 0, 1⟩, ⟨"b", 1, 2⟩]

/-- Cue carrying `wsC4`. -/
def subC4 : Subtitle :=
  { id := "s", text := "a b", start := 0, endTime := 10, words := some wsC4 }

/-- Cue with `end < start` and no word timestamps. -/
def subC8ex : Subtitle :=
  { id := "s", text := "a b", start := 1, endTime := 0, words := none }

/-- Cue with workable fallback data. -/
def subC8w : Subtitle :=
  { id := "s", text := "hello world", start := 0, endTime := 4, words := none }

/-- Fault environment: the PNG render promise of index 1 rejects. -/
def envC3 : JobEnv :=
  { pngFails := fun i => i == 1, batchFails := fun _ => false
    batchProgress := fun _ => [] }

/-- Fault environment: ffmpeg batch 0 rejects mid-run. -/
def envC3b : JobEnv :=
  { pngFails := fun _ => false, batchFails := fun k => k == 0
    batchProgress := fun _ => [] }

/-- Fault-free environment with one progress callback per batch. -/
def env0 : JobEnv :=
  { pngFails := fun _ => false, batchFails := fun _ => false
    batchProgress := fun _ => [50] }

/-- Two plain cues. -/
def subsC3 : List Subtitle :=
  [{ id := "s1", text := "hello", start := 0, endTime := 1, words := none },
   { id := "s2", text := "world", start := 1, endTime := 2, words := none }]

/-- Raw style with `position:'custom'` and no `customX`/`customY`. -/
def rawC2 : RawStyleInput :=
  { fontFamily := some "Arial", fontSize := some 16, textColor := some "#fff"
    bgColor := some "#000", bgOpacity := some 1, borderRadius := some 0
    position := some "custom", customX := none, customY := none
    effectType := none }

/-- Raw style with `position:'custom'`, a `customY` but no `customX`. -/
def rawC2w : RawStyleInput :=
  { fontFamily := some "Verdana", fontSize := some 20, textColor := some "#eee"
    bgColor := some "#111", bgOpacity := some (1/2), borderRadius := some 4
    position := some "custom", customX := none, customY := some 7
    effectType := none }

/-- Custom-positioned style whose `customX` is missing. -/
def styleC10 : SubtitleStyle :=
  { fontFamily := "Arial", fontSize := 16, textColor := "#fff"
    bgColor := "#000", bgOpacity := 1, borderRadius := 0
    position := "custom", customX := none, customY := some 5, effectType := none }

/-- A concrete number formatter for witnesses. -/
def fmtEx : ℚ → String := fun q => toString q

/-! ## Helper lemmas -/

theorem length_mapWithIndexAux (f : Nat → α → β) :
    ∀ (n : Nat) (l : List α), (mapWithIndexAux f n l).length = l.length := by
  intro n l
  induction l generalizing n with
  | nil => rfl
  | cons a as ih => simp [mapWithIndexAux, ih]

theorem length_mapWithIndex (f : Nat → α → β) (l : List α) :
    (mapWithIndex f l).length = l.length :=
  length_mapWithIndexAux f 0 l

theorem getElem?_mapWithIndexAux (f : Nat → α → β) :
    ∀ (n i : Nat) (l : List α),
      (mapWithIndexAux f n l)[i]? = (l[i]?).map (f (n + i)) := by
  intro n i l
  induction l generalizing n i with
  | nil => simp [mapWithIndexAux]
  | cons a as ih =>
    cases i with
    | zero => simp [mapWithIndexAux]
    | succ j =>
      have harith : n + 1 + j = n + (j + 1) := by omega
      simp only [mapWithIndexAux, List.getElem?_cons_succ]
      rw [ih (n + 1) j, harith]

theorem getElem?_mapWithIndex (f : Nat → α → β) (l : List α) (i : Nat) :
    (mapWithIndex f l)[i]? = (l[i]?).map (f i) := by
  rw [mapWithIndex, getElem?_mapWithIndexAux]
  simp

/-! ## Claim theorems -/

/-- Claim C1 (code bug): the claim states that
`calculateSubtitleLayoutMetrics` always returns even-integer box
dimensions (as the source's own comment, "Ensure dimensions are even for
H.264 compatibility", intends).  The code computes `boxWidth % 2 === 0`
on a floating-point value and only adds 1 when the remainder is non-zero,
so any fractional text measurement — the normal case — yields a
non-integer box dimension.  At the concrete failing input below
(`measureText` returning width 1/2, a 750-pixel-high frame so the scale
factor is exactly 1) the returned `boxWidth` is 99/2: not an integer at
all, hence not an even integer. -/
theorem layoutMetrics_even_rounding_bug :
    ((calculateSubtitleLayoutMetrics measC1 fontOkC1 "a" styleBottom 1280 750).map
        (fun m => m.boxWidth)) = some (99/2) ∧
      ((99 : ℚ)/2).den = 2 ∧ ¬ ∃ n : ℤ, (99 : ℚ)/2 = 2 * n := by
  refine ⟨by with_unfolding_all rfl, by with_unfolding_all rfl, ?_⟩
  rintro ⟨n, hn⟩
  have h4 : (99 : ℚ) = 4 * (n : ℚ) := by
    field_simp at hn
    linarith
  have h4' : (99 : ℤ) = 4 * n := by exact_mod_cast h4
  omega

/-- Claim C2 (counterexample): a full export request whose style has
`position:'custom'` and no `customX` passes the `exportWithSubs` input
schema — it is not rejected. -/
theorem exportSchema_accepts_custom_without_coords :
    (parseExportInput (some "") (some []) (some rawC2)).isSome = true := by
  decide

/-- Claim C2 (amended): the submit-export input validation accepts a style
with `position = 'custom'` and no `customX` — the schema leaves
`customX`/`customY` optional and unconstrained by `position`, so no
synchronous rejection happens for this malformed style. -/
theorem exportSchema_custom_missing_coords_accepted (v : String)
    (r : RawStyleInput)
    (h1 : r.fontFamily.isSome = true) (h2 : r.fontSize.isSome = true)
    (h3 : r.textColor.isSome = true) (h4 : r.bgColor.isSome = true)
    (h5 : r.bgOpacity.isSome = true) (h6 : r.borderRadius.isSome = true)
    (h7 : r.position = some "custom") (hx : r.customX = none)
    (he : r.effectType = none) :
    (parseExportInput (some v) (some []) (some r)).isSome = true := by
  rw [Option.isSome_iff_exists] at h1 h2 h3 h4 h5 h6
  obtain ⟨a1, e1⟩ := h1
  obtain ⟨a2, e2⟩ := h2
  obtain ⟨a3, e3⟩ := h3
  obtain ⟨a4, e4⟩ := h4
  obtain ⟨a5, e5⟩ := h5
  obtain ⟨a6, e6⟩ := h6
  simp [parseExportInput, parseStyle, e1, e2, e3, e4, e5, e6, h7, hx, he,
    List.mapM, List.mapM.loop]

/-- Claim C2 witness: the amended statement at a concrete raw style. -/
theorem exportSchema_custom_missing_coords_accepted_witness :
    (parseExportInput (some "AA") (some []) (some rawC2w)).isSome = true :=
  exportSchema_custom_missing_coords_accepted "AA" rawC2w rfl rfl rfl rfl rfl
    rfl rfl rfl rfl

/-- Claim C3 (code bug): the claim states every temporary file is deleted
exactly once on every exit path.  Two exit paths leak: (1) if one PNG
render promise rejects while a sibling already resolved, `Promise.all`
rejects before `allPngPaths` is populated, so the resolved promise's PNG
is never deleted; (2) if `runFfmpegBatch` throws, the batch output temp
file created just before the call is never cleaned (only
`previousBatchTmpFile` — the previous batch — is).  Both are evaluated
here on two-cue jobs. -/
theorem worker_cleanup_leak_bug :
    (processVideoExport envC3 subsC3 styleBottom).2 = false ∧
      leakedPaths (processVideoExport envC3 subsC3 styleBottom).1 =
        [TmpPath.png 0] ∧
      (processVideoExport envC3b subsC3 styleBottom).2 = false ∧
      leakedPaths (processVideoExport envC3b subsC3 styleBottom).1 =
        [TmpPath.batch 0] := by
  decide

/-- Claim C8 (counterexample): for the cue `subC8ex` with `end < start`
(and no `words`), the code uses word duration 0 — not
`(end − start)/k` — so the last SubCue ends at `start`, not at
`cue.end`, refuting the claim as stated for arbitrary cues. -/
theorem evenSplit_negative_duration_cex :
    (splitSubtitleIntoWords subC8ex "wordByWord").length = 2 ∧
      ((splitSubtitleIntoWords subC8ex "wordByWord").getLast?.map
          (fun c => c.endTime)) = some 1 ∧
      subC8ex.endTime = 0 ∧
      ((splitSubtitleIntoWords subC8ex "wordByWord").getLast?.map
          (fun c => c.endTime)) ≠ some subC8ex.endTime := by
  refine ⟨by decide, by with_unfolding_all rfl, rfl, ?_⟩
  rw [show ((splitSubtitleIntoWords subC8ex "wordByWord").getLast?.map
      (fun c => c.endTime)) = some 1 from by with_unfolding_all rfl]
  rw [show subC8ex.endTime = 0 from rfl]
  simp only [ne_eq, Option.some.injEq]
  norm_num

/-- Claim C5: for a cue whose `words` array is present and non-empty with
k entries, `splitSubtitleIntoWords(cue, 'wordByWord')` returns exactly k
SubCues, and SubCue i has text `words[i].word`, start `words[i].start`
and end `words[i].end`. -/
theorem wordByWord_exact_windows (sub : Subtitle) (ws : List WordTimestamp)
    (hw : sub.words = some ws) (hne : ws ≠ []) :
    (splitSubtitleIntoWords sub "wordByWord").length = ws.length ∧
    ∀ i, (h : i < ws.length) →
      (splitSubtitleIntoWords sub "wordByWord")[i]? =
        some { id := sub.id ++ "-word-" ++ toString i
               originalId := sub.id
               text := ws[i].word
               start := ws[i].start
               endTime := ws[i].endTime
               words := some [ws[i]] } := by
  have hbranch : splitSubtitleIntoWords sub "wordByWord" =
      mapWithIndex (fun index wordData =>
        { id := sub.id ++ "-word-" ++ toString index
          originalId := sub.id
          text := wordData.word
          start := wordData.start
          endTime := wordData.endTime
          words := some [wordData] }) ws := by
    simp [splitSubtitleIntoWords, hw, hne]
  refine ⟨by rw [hbranch, length_mapWithIndex], ?_⟩
  intro i h
  rw [hbranch, getElem?_mapWithIndex, List.getElem?_eq_getElem h]
  rfl

/-- Claim C5 witness: the theorem applied to the concrete cue `subC4`. -/
theorem wordByWord_exact_windows_witness :
    (splitSubtitleIntoWords subC4 "wordByWord").length = wsC4.length :=
  (wordByWord_exact_windows subC4 wsC4 rfl (by decide)).1

/-- Claim C10: when `style.position = 'custom'` but `customX` or `customY`
is missing (or fails the `typeof === 'number'` guard), the builder does
not fail: every overlay stage falls back to the default bottom placement,
horizontally centred with `y = main_h-overlay_h-50`. -/
theorem customPosition_fallback_bottom (fmt : ℚ → String)
    (style : SubtitleStyle) (videoHeight : ℚ)
    (hpos : style.position = "custom")
    (hmiss : style.customX = none ∨ style.customY = none) :
    overlayXY fmt style videoHeight =
      ("(main_w-overlay_w)/2", "main_h-overlay_h-50") ∧
    ∀ (prevTag : String) (index : Nat) (sub : Subtitle),
      overlayStage fmt style videoHeight prevTag index sub =
        "[" ++ prevTag ++ "]" ++
          ("[" ++ toString (index + 1) ++ ":v]overlay=" ++
            "(main_w-overlay_w)/2" ++ ":" ++ "main_h-overlay_h-50" ++
            ":enable=\x27between(t," ++ fmt sub.start ++ "," ++
            fmt sub.endTime ++ ")\x27") ++
          "[v" ++ toString (index + 1) ++ "]" := by
  have hxy : overlayXY fmt style videoHeight =
      ("(main_w-overlay_w)/2", "main_h-overlay_h-50") := by
    rcases hmiss with hx | hy
    · rw [overlayXY, hpos, hx]
      simp
    · rw [overlayXY, hpos, hy]
      rcases style.customX with _ | cx <;> simp
  refine ⟨hxy, ?_⟩
  intro prevTag index sub
  rw [overlayStage, stageBody, hxy]

/-- Claim C10 witness: the fallback coordinates at the concrete style
`styleC10` (custom position, missing `customX`). -/
theorem customPosition_fallback_bottom_witness :
    overlayXY fmtEx styleC10 720 =
      ("(main_w-overlay_w)/2", "main_h-overlay_h-50") :=
  (customPosition_fallback_bottom fmtEx styleC10 720 rfl (Or.inl rfl)).1

theorem append_fuse (a b c : String) (h : a ++ b = c) (t : String) :
    c ++ t = a ++ (b ++ t) := by
  rw [← h, String.append_assoc]

theorem overlayStage_chain_shape (fmt : ℚ → String) (style : SubtitleStyle)
    (videoHeight : ℚ) (tag : String) (i : Nat) (sub : Subtitle) :
    overlayStage fmt style videoHeight tag i sub =
      "[" ++ tag ++ "]" ++ stageBody fmt style videoHeight i sub ++
        ("[" ++ overlayTag (i + 1) ++ "]") := by
  rw [overlayStage]
  rw [show overlayTag (i + 1) = "v" ++ toString (i + 1) from rfl]
  simp only [String.append_assoc]
  rw [append_fuse "[" "v" "[v" (by with_unfolding_all rfl)]

theorem buildOverlaysGo_eq (fmt : ℚ → String) (style : SubtitleStyle)
    (videoHeight : ℚ) :
    ∀ (l : List Subtitle) (n : Nat),
      buildOverlaysGo fmt style videoHeight n (overlayTag n) l =
        mapWithIndexAux
          (fun i sub => overlayStage fmt style videoHeight (overlayTag i) i sub)
          n l := by
  intro l
  induction l with
  | nil => intro n; rfl
  | cons a as ih =>
    intro n
    simp only [buildOverlaysGo, mapWithIndexAux]
    rw [show ("v" ++ toString (n + 1)) = overlayTag (n + 1) from rfl, ih (n + 1)]

/-- Claim C6: `buildOverlayFilterComplex` throws exactly when the subtitle
and PNG counts differ; for equal lengths it emits one overlay stage per
subtitle, stage `i` reading tag `overlayTag i` (so stage 0 reads the base
stream `0:v` and every later stage reads the previous stage's output
label) and writing `overlayTag (i+1)`; the gate
`between(t, start, end)` for subtitle `i` is part of `stageBody`. -/
theorem buildOverlay_mismatch_and_chain (fmt : ℚ → String)
    (style : SubtitleStyle) (videoWidth videoHeight : ℚ)
    (subs : List Subtitle) (pngs : List String) :
    (buildOk (buildOverlayFilterComplex fmt subs pngs style videoWidth
        videoHeight) = false ↔ subs.length ≠ pngs.length) ∧
    (subs.length ≠ pngs.length →
      buildOverlayFilterComplex fmt subs pngs style videoWidth videoHeight =
        Except.error "Number of subtitles and PNG paths must match") ∧
    (subs.length = pngs.length →
      buildOverlayFilterComplex fmt subs pngs style videoWidth videoHeight =
        Except.ok (String.intercalate ";" (stagesOf fmt style videoHeight subs))) ∧
    (stagesOf fmt style videoHeight subs).length = subs.length ∧
    overlayTag 0 = "0:v" ∧
    (∀ i, (h : i < subs.length) →
      (stagesOf fmt style videoHeight subs)[i]? =
        some ("[" ++ overlayTag i ++ "]" ++
          stageBody fmt style videoHeight i subs[i] ++
          ("[" ++ overlayTag (i + 1) ++ "]"))) := by
  have hgo : buildOverlaysGo fmt style videoHeight 0 "0:v" subs =
      mapWithIndex
        (fun i sub => overlayStage fmt style videoHeight (overlayTag i) i sub)
        subs := by
    rw [show ("0:v" : String) = overlayTag 0 from rfl]
    exact buildOverlaysGo_eq fmt style videoHeight subs 0
  refine ⟨?_, ?_, ?_, ?_, rfl, ?_⟩
  · by_cases h : subs.length = pngs.length
    · rw [buildOverlayFilterComplex, if_neg (not_not_intro h)]
      simp [buildOk, h]
    · rw [buildOverlayFilterComplex, if_pos h]
      simp [buildOk, h]
  · intro h
    simp [buildOverlayFilterComplex, h]
  · intro h
    rw [buildOverlayFilterComplex, if_neg (not_not_intro h), hgo]
    rfl
  · rw [stagesOf, length_mapWithIndex]
  · intro i h
    rw [stagesOf, getElem?_mapWithIndex, List.getElem?_eq_getElem h]
    simp only [Option.map_some']
    rw [overlayStage_chain_shape]

/-- Claim C6 witness: for one subtitle and one PNG path the builder emits
the single chained stage. -/
theorem buildOverlay_mismatch_and_chain_witness :
    buildOverlayFilterComplex fmtEx [subC4] ["p"] styleBottom 1280 720 =
      Except.ok (String.intercalate ";" (stagesOf fmtEx styleBottom 720 [subC4])) :=
  (buildOverlay_mismatch_and_chain fmtEx styleBottom 1280 720 [subC4]
    ["p"]).2.2.1 rfl

/-- Claim C9: in the worker, the subtitle slice and PNG-path slice handed
to `buildOverlayFilterComplex` for any batch have equal lengths — both
lists are built in lockstep (one render promise is pushed per processed
sub-cue, and `Promise.all` preserves order and count, the hypothesis
`hlen`), and both are sliced with the same indices — so the builder's
length-mismatch error branch is unreachable from the worker. -/
theorem worker_batch_lengths_match (fmt : ℚ → String) (subs : List Subtitle)
    (effectType : String) (pngPaths : List String) (style : SubtitleStyle)
    (videoWidth videoHeight : ℚ)
    (hlen : pngPaths.length = (expandedSubs subs effectType).length)
    (i : Nat) :
    (((expandedSubs subs effectType).drop i).take BATCH_SIZE).length =
      ((pngPaths.drop i).take BATCH_SIZE).length ∧
    buildOk (buildOverlayFilterComplex fmt
      (((expandedSubs subs effectType).drop i).take BATCH_SIZE)
      ((pngPaths.drop i).take BATCH_SIZE) style videoWidth videoHeight) =
      true := by
  have hl : (((expandedSubs subs effectType).drop i).take BATCH_SIZE).length =
      ((pngPaths.drop i).take BATCH_SIZE).length := by
    simp [List.length_take, List.length_drop, hlen]
  refine ⟨hl, ?_⟩
  rw [buildOverlayFilterComplex, if_neg (not_not_intro hl)]
  rfl

theorem wsTokensGo_ne_nil :
    ∀ (cs cur : List Char),
      ((∃ c ∈ cs, c.isWhitespace = false) ∨ cur ≠ []) →
        wsTokensGo cur cs ≠ [] := by
  intro cs
  induction cs with
  | nil =>
    intro cur h
    rcases h with ⟨c, hc, _⟩ | hne
    · exact absurd hc (List.not_mem_nil c)
    · have hie : cur.isEmpty = false := by
        rcases cur with _ | ⟨a, t⟩
        · exact absurd rfl hne
        · rfl
      simp [wsTokensGo, hie]
  | cons c cs ih =>
    intro cur h
    simp only [wsTokensGo]
    by_cases hws : c.isWhitespace
    · rw [if_pos hws]
      by_cases hcur : cur.isEmpty
      · rw [if_pos hcur]
        apply ih []
        left
        rcases h with ⟨d, hd, hdw⟩ | hne
        · rcases List.mem_cons.mp hd with rfl | hd'
          · rw [hws] at hdw
            exact absurd hdw (by simp)
          · exact ⟨d, hd', hdw⟩
        · exact absurd (List.isEmpty_iff.mp hcur) hne
      · rw [if_neg hcur]
        exact List.cons_ne_nil _ _
    · rw [if_neg hws]
      exact ih (c :: cur) (Or.inr (List.cons_ne_nil _ _))

theorem jsSplitWhitespace_ne_nil (s : String) : jsSplitWhitespace s ≠ [] := by
  simp only [jsSplitWhitespace]
  by_cases ht : jsTrim s = ""
  · simp [ht]
  · rw [if_neg ht]
    apply wsTokensGo_ne_nil
    left
    have hl : (jsTrim s).toList ≠ [] := by
      intro hnil
      exact ht (String.ext hnil)
    have hl2 : ((s.toList.dropWhile Char.isWhitespace).reverse.dropWhile
        Char.isWhitespace) ≠ [] := by
      intro h0
      apply hl
      show ((s.toList.dropWhile Char.isWhitespace).reverse.dropWhile
        Char.isWhitespace).reverse = []
      rw [h0]
      rfl
    refine ⟨((s.toList.dropWhile Char.isWhitespace).reverse.dropWhile
        Char.isWhitespace).head hl2, ?_, ?_⟩
    · show _ ∈ ((s.toList.dropWhile Char.isWhitespace).reverse.dropWhile
        Char.isWhitespace).reverse
      exact List.mem_reverse.mpr (List.head_mem hl2)
    · exact List.head_dropWhile_not _ _ hl2

/-- Claim C8 (amended): for every cue whose `words` array is absent **and
whose `start ≤ end`**, requesting `'wordByWord'` or `'cumulativePopOn'`
does not fail: the text is split on whitespace into k words and k SubCues
of equal duration `(end − start)/k` tile `[start, end]` in order, the last
ending exactly at `cue.end`.  (For `end < start` the code uses word
duration 0 instead — see the counterexample.) -/
theorem evenSplit_tiles (sub : Subtitle) (effectType : String)
    (hw : sub.words = none)
    (heff : effectType = "wordByWord" ∨ effectType = "cumulativePopOn")
    (hse : sub.start ≤ sub.endTime) :
    (splitSubtitleIntoWords sub effectType).length =
      (jsSplitWhitespace sub.text).length ∧
    (∀ i, (hi : i < (jsSplitWhitespace sub.text).length) →
      ((splitSubtitleIntoWords sub effectType)[i]?.map
          (fun c => (c.start, c.endTime))) =
        some (sub.start + (i : ℚ) * ((sub.endTime - sub.start) /
                ((jsSplitWhitespace sub.text).length : ℚ)),
              sub.start + ((i : ℚ) + 1) * ((sub.endTime - sub.start) /
                ((jsSplitWhitespace sub.text).length : ℚ)))) ∧
    sub.start + ((jsSplitWhitespace sub.text).length : ℚ) *
        ((sub.endTime - sub.start) /
          ((jsSplitWhitespace sub.text).length : ℚ)) = sub.endTime := by
  have hne : jsSplitWhitespace sub.text ≠ [] := jsSplitWhitespace_ne_nil sub.text
  have hkpos : 0 < (jsSplitWhitespace sub.text).length := List.length_pos.mpr hne
  have hk : ((jsSplitWhitespace sub.text).length : ℚ) ≠ 0 :=
    Nat.cast_ne_zero.mpr (Nat.pos_iff_ne_zero.mp hkpos)
  have h3 : sub.start + ((jsSplitWhitespace sub.text).length : ℚ) *
      ((sub.endTime - sub.start) /
        ((jsSplitWhitespace sub.text).length : ℚ)) = sub.endTime := by
    rw [mul_comm, div_mul_cancel₀ _ hk]
    ring
  have hbr : splitSubtitleIntoWords sub effectType =
      evenSplitFallback sub effectType := by
    simp only [splitSubtitleIntoWords, hw]
  have hie : (jsSplitWhitespace sub.text).isEmpty = false := by
    rcases h : jsSplitWhitespace sub.text with _ | ⟨a, t⟩
    · exact absurd h hne
    · rfl
  have hd : (if 0 < sub.endTime - sub.start then
        (sub.endTime - sub.start) / ((jsSplitWhitespace sub.text).length : ℚ)
      else 0) =
      (sub.endTime - sub.start) / ((jsSplitWhitespace sub.text).length : ℚ) := by
    by_cases hpos : 0 < sub.endTime - sub.start
    · rw [if_pos hpos]
    · rw [if_neg hpos]
      have h0 : sub.endTime - sub.start = 0 := by linarith
      rw [h0, zero_div]
  rcases heff with he | he <;> subst he
  · -- wordByWord fallback branch
    have hout : splitSubtitleIntoWords sub "wordByWord" =
        mapWithIndex (fun index word =>
          ({ id := sub.id ++ "-word-" ++ toString index
             originalId := sub.id
             text := word
             start := sub.start + index *
               (if 0 < sub.endTime - sub.start then
                 (sub.endTime - sub.start) /
                   ((jsSplitWhitespace sub.text).length : ℚ)
               else 0)
             endTime := sub.start + (index + 1) *
               (if 0 < sub.endTime - sub.start then
                 (sub.endTime - sub.start) /
                   ((jsSplitWhitespace sub.text).length : ℚ)
               else 0)
             words := none } : SubCue)) (jsSplitWhitespace sub.text) := by
      have hx : ¬(("wordByWord" : String) = "cumulativePopOn") := by decide
      rw [hbr]
      simp only [evenSplitFallback, hie, Bool.false_eq_true, if_false]
      rw [if_neg hx, if_pos trivial]
    refine ⟨by rw [hout, length_mapWithIndex], ?_, h3⟩
    intro i hi
    rw [hout, getElem?_mapWithIndex, List.getElem?_eq_getElem hi]
    simp only [Option.map_some']
    rw [hd]
  · -- cumulativePopOn fallback branch
    have hout : splitSubtitleIntoWords sub "cumulativePopOn" =
        mapWithIndex (fun index _ =>
          ({ id := sub.id ++ "-word-" ++ toString index
             originalId := sub.id
             text := joinSp ((jsSplitWhitespace sub.text).take (index + 1))
             start := sub.start + index *
               (if 0 < sub.endTime - sub.start then
                 (sub.endTime - sub.start) /
                   ((jsSplitWhitespace sub.text).length : ℚ)
               else 0)
             endTime :=
               if index = (jsSplitWhitespace sub.text).length - 1 then
                 sub.endTime
               else sub.start + (index + 1) *
                 (if 0 < sub.endTime - sub.start then
                   (sub.endTime - sub.start) /
                     ((jsSplitWhitespace sub.text).length : ℚ)
                 else 0)
             words := none } : SubCue)) (jsSplitWhitespace sub.text) := by
      rw [hbr]
      simp only [evenSplitFallback, hie, Bool.false_eq_true, if_false]
      rw [if_pos trivial]
    refine ⟨by rw [hout, length_mapWithIndex], ?_, h3⟩
    intro i hi
    rw [hout, getElem?_mapWithIndex, List.getElem?_eq_getElem hi]
    simp only [Option.map_some']
    rw [hd]
    by_cases hlast : i = (jsSplitWhitespace sub.text).length - 1
    · rw [if_pos hlast]
      have hcast : ((i : ℚ) + 1) = ((jsSplitWhitespace sub.text).length : ℚ) := by
        have hnat : i + 1 = (jsSplitWhitespace sub.text).length := by omega
        push_cast [← hnat]
        ring
      rw [Option.some.injEq, Prod.mk.injEq]
      constructor
      · ring
      · rw [hcast, h3]
    · rw [if_neg hlast]

/-- Claim C8 witness: the amended statement at the concrete cue `subC8w`
— two whitespace-separated words, duration 4, equal 2-second windows. -/
theorem evenSplit_tiles_witness :
    (splitSubtitleIntoWords subC8w "cumulativePopOn").length =
      (jsSplitWhitespace subC8w.text).length :=
  (evenSplit_tiles subC8w "cumulativePopOn" rfl (Or.inr rfl)
    (by norm_num [subC8w])).1

theorem joinSp_cons_cons (a b : String) (l : List String) :
    joinSp (a :: b :: l) = a ++ " " ++ joinSp (b :: l) := rfl

theorem joinSp_append (l1 l2 : List String) (h1 : l1 ≠ []) (h2 : l2 ≠ []) :
    joinSp (l1 ++ l2) = joinSp l1 ++ " " ++ joinSp l2 := by
  induction l1 with
  | nil => exact absurd rfl h1
  | cons a t ih =>
    rcases t with _ | ⟨b, t'⟩
    · rcases l2 with _ | ⟨c, m⟩
      · exact absurd rfl h2
      · rw [List.singleton_append, joinSp_cons_cons]
        rfl
    · show joinSp (a :: b :: (t' ++ l2)) = joinSp (a :: b :: t') ++ " " ++ joinSp l2
      rw [List.cons_append] at ih
      rw [joinSp_cons_cons a b (t' ++ l2), ih (List.cons_ne_nil b t'),
        joinSp_cons_cons a b t']
      simp [String.append_assoc]

theorem cumulativeStep_mem_lt {sub : Subtitle} {ws : List WordTimestamp}
    {i : Nat} {c : SubCue} (hc : cumulativeStep sub ws i = some c) :
    i < ws.length := by
  by_contra hge
  have : ws[i]? = none := List.getElem?_eq_none (by omega)
  rw [cumulativeStep, this] at hc
  exact Option.noConfusion hc

theorem cumulativeStep_some_fields {sub : Subtitle} {ws : List WordTimestamp}
    {i : Nat} {c : SubCue} (hc : cumulativeStep sub ws i = some c) :
    ∃ (h : i < ws.length),
      c.text = joinSp (((ws.map (fun w => w.word)).take (i + 1))) ∧
      c.start = ws[i].start ∧
      c.endTime = min sub.endTime (max (ws[i].start + 1/1000)
        (match ws[i+1]? with
         | some nw => nw.start
         | none => sub.endTime)) := by
  have h := cumulativeStep_mem_lt hc
  refine ⟨h, ?_⟩
  rw [cumulativeStep, List.getElem?_eq_getElem h] at hc
  simp only at hc
  split at hc
  · rename_i hlt
    have hcv : c = _ := ((Option.some.injEq _ _).mp hc.symm)
    subst hcv
    refine ⟨?_, rfl, rfl⟩
    exact congrArg joinSp (List.map_take _ _ _)
  · exact Option.noConfusion hc

theorem cumulativeStep_isSome_iff (sub : Subtitle) (ws : List WordTimestamp)
    (i : Nat) (h : i < ws.length) :
    (cumulativeStep sub ws i).isSome = true ↔ ws[i].start < sub.endTime := by
  rw [cumulativeStep, List.getElem?_eq_getElem h]
  simp only
  have heps : ws[i].start < ws[i].start + 1/1000 := by linarith
  split
  · rename_i hlt
    simp only [Option.isSome_some, true_iff]
    rcases lt_min_iff.mp hlt with ⟨h1, _⟩
    exact h1
  · rename_i hnlt
    simp only [Option.isSome_none, Bool.false_eq_true, false_iff, not_lt]
    by_contra hcon
    push_neg at hcon
    apply hnlt
    rw [lt_min_iff]
    exact ⟨hcon, lt_max_of_lt_left heps⟩

theorem cumulativeStep_end_at_cue_end {sub : Subtitle}
    {ws : List WordTimestamp} {i : Nat} {c : SubCue}
    (hc : cumulativeStep sub ws i = some c)
    (hnext : i + 1 < ws.length → cumulativeStep sub ws (i + 1) = none) :
    c.endTime = sub.endTime := by
  obtain ⟨h, _, _, hend⟩ := cumulativeStep_some_fields hc
  by_cases h2 : i + 1 < ws.length
  · have hnone := hnext h2
    have hns : ¬ ws[i+1].start < sub.endTime := by
      intro hlt
      have := (cumulativeStep_isSome_iff sub ws (i+1) h2).mpr hlt
      rw [hnone] at this
      exact Bool.noConfusion this
    push_neg at hns
    rw [List.getElem?_eq_getElem h2] at hend
    simp only at hend
    rw [hend]
    exact min_eq_left (le_trans hns (le_max_right _ _))
  · have : ws[i+1]? = none := List.getElem?_eq_none (by omega)
    rw [this] at hend
    simp only at hend
    rw [hend]
    exact min_eq_left (le_max_right _ _)

theorem getLast?_filterMap_range {f : Nat → Option α} :
    ∀ {n : Nat} {c : α},
      ((List.range n).filterMap f).getLast? = some c →
        ∃ i, i < n ∧ f i = some c ∧ ∀ j, i < j → j < n → f j = none := by
  intro n
  induction n with
  | zero => intro c hc; simp at hc
  | succ m ih =>
    intro c hc
    rw [List.range_succ, List.filterMap_append] at hc
    cases hfm : f m with
    | some a =>
      simp only [List.filterMap_cons, List.filterMap_nil, hfm] at hc
      rw [List.getLast?_concat] at hc
      refine ⟨m, Nat.lt_succ_self m, ?_, ?_⟩
      · rw [hfm]
        exact congrArg some (Option.some.injEq _ _ |>.mp hc)
      · intro j hj1 hj2
        omega
    | none =>
      simp only [List.filterMap_cons, List.filterMap_nil, hfm,
        List.append_nil] at hc
      obtain ⟨i, hi, hfi, hall⟩ := ih hc
      refine ⟨i, by omega, hfi, ?_⟩
      intro j hj1 hj2
      rcases Nat.lt_succ_iff_lt_or_eq.mp hj2 with hlt | rfl
      · exact hall j hj1 hlt
      · exact hfm

/-- Claim C4: for every cue with a non-empty `words` array,
`splitSubtitleIntoWords(cue, 'cumulativePopOn')` returns a non-empty
sequence in which each SubCue's text is a strict prefix-by-words of the
next one's (the next text appends one or more space-joined words), and
the last SubCue's end equals `cue.end`; if the clamping loop pushes zero
steps, the single original cue is returned instead of an empty list. -/
theorem cumulativePopOn_spec (sub : Subtitle) (ws : List WordTimestamp)
    (hw : sub.words = some ws) (hne : ws ≠ []) :
    splitSubtitleIntoWords sub "cumulativePopOn" ≠ [] ∧
    List.Chain' (fun a b => ∃ l, l ≠ [] ∧
      b.text = a.text ++ " " ++ joinSp l)
      (splitSubtitleIntoWords sub "cumulativePopOn") ∧
    (∃ c, (splitSubtitleIntoWords sub "cumulativePopOn").getLast? = some c ∧
      c.endTime = sub.endTime) ∧
    ((List.range ws.length).filterMap (cumulativeStep sub ws) = [] →
      splitSubtitleIntoWords sub "cumulativePopOn" = [originalSubCue sub]) := by
  have hbr : splitSubtitleIntoWords sub "cumulativePopOn" =
      cumulativeSubsOf sub ws := by
    have hx : ¬(("cumulativePopOn" : String) = "wordByWord" ∧ ws ≠ []) := by
      intro hand
      exact absurd hand.1 (by decide)
    simp only [splitSubtitleIntoWords, hw, if_neg hx]
    exact if_pos ⟨trivial, hne⟩
  by_cases hL : (List.range ws.length).filterMap (cumulativeStep sub ws) = []
  · have hout : splitSubtitleIntoWords sub "cumulativePopOn" =
        [originalSubCue sub] := by
      rw [hbr, cumulativeSubsOf]
      rw [hL]
      rfl
    refine ⟨by rw [hout]; exact List.cons_ne_nil _ _, ?_, ?_, fun _ => hout⟩
    · rw [hout]
      exact List.chain'_singleton _
    · exact ⟨originalSubCue sub, by rw [hout]; rfl, rfl⟩
  · have hie : ((List.range ws.length).filterMap
        (cumulativeStep sub ws)).isEmpty = false := by
      rcases h : (List.range ws.length).filterMap (cumulativeStep sub ws) with
        _ | ⟨a, t⟩
      · exact absurd h hL
      · rfl
    have hout : splitSubtitleIntoWords sub "cumulativePopOn" =
        (List.range ws.length).filterMap (cumulativeStep sub ws) := by
      rw [hbr, cumulativeSubsOf]
      simp only [hie, Bool.false_eq_true, if_false]
    refine ⟨by rw [hout]; exact hL, ?_, ?_, fun h => absurd h hL⟩
    · rw [hout]
      apply List.Pairwise.chain'
      rw [List.pairwise_filterMap]
      apply List.Pairwise.imp ?_ (List.pairwise_lt_range ws.length)
      intro i j hij
      intro b hb b' hb'
      rw [Option.mem_def] at hb hb'
      obtain ⟨hi, hbt, _, _⟩ := cumulativeStep_some_fields hb
      obtain ⟨hj, hbt', _, _⟩ := cumulativeStep_some_fields hb'
      set l := ws.map (fun w => w.word) with hldef
      have hlen : l.length = ws.length := List.length_map ws _
      refine ⟨(l.drop (i + 1)).take (j - i), ?_, ?_⟩
      · apply List.length_pos.mp
        rw [List.length_take, List.length_drop, hlen]
        omega
      · have hsplit : l.take (j + 1) = l.take (i + 1) ++
            (l.drop (i + 1)).take (j - i) := by
          rw [← List.take_add]
          congr 1
          omega
        have htne : l.take (i + 1) ≠ [] := by
          apply List.length_pos.mp
          rw [List.length_take, hlen]
          omega
        have hextne : (l.drop (i + 1)).take (j - i) ≠ [] := by
          apply List.length_pos.mp
          rw [List.length_take, List.length_drop, hlen]
          omega
        rw [hbt, hbt', hsplit, joinSp_append _ _ htne hextne]
    · rw [hout]
      have hsome : ((List.range ws.length).filterMap
          (cumulativeStep sub ws)).getLast?.isSome = true := by
        rw [List.getLast?_isSome]
        exact hL
      obtain ⟨c, hc⟩ := Option.isSome_iff_exists.mp hsome
      obtain ⟨i, hi, hfi, hall⟩ := getLast?_filterMap_range hc
      refine ⟨c, hc, ?_⟩
      exact cumulativeStep_end_at_cue_end hfi
        (fun h2 => hall (i + 1) (Nat.lt_succ_self i) h2)

/-- Claim C4 witness: the theorem applied to the concrete cue `subC4`. -/
theorem cumulativePopOn_spec_witness :
    splitSubtitleIntoWords subC4 "cumulativePopOn" ≠ [] :=
  (cumulativePopOn_spec subC4 wsC4 rfl (by decide)).1

theorem filterMap_map_eq_nil {α β γ : Type} (f : α → β) (g : β → Option γ)
    (h : ∀ a, g (f a) = none) (l : List α) : (l.map f).filterMap g = [] := by
  induction l with
  | nil => rfl
  | cons a t ih => simp [List.filterMap_cons, h, ih]

theorem filterMap_some_comp {α β : Type} (f : α → β) (l : List α) :
    l.filterMap (fun a => some (f a)) = l.map f := by
  induction l with
  | nil => rfl
  | cons a t ih => simp [List.filterMap_cons, ih]

theorem runsOf_append (a b : List Ev) :
    runsOf (a ++ b) = runsOf a ++ runsOf b := List.filterMap_append _ _ _

theorem progsOf_append (a b : List Ev) :
    progsOf (a ++ b) = progsOf a ++ progsOf b := List.filterMap_append _ _ _

theorem runsOf_deleteOpt (o : Option Nat) :
    runsOf (match o with
      | some j => [Ev.delete (TmpPath.batch j)]
      | none => []) = [] := by
  cases o <;> rfl

theorem progsOf_deleteOpt (o : Option Nat) :
    progsOf (match o with
      | some j => [Ev.delete (TmpPath.batch j)]
      | none => []) = [] := by
  cases o <;> rfl

theorem runsOf_map_progress {α : Type} (g : α → ℚ) (l : List α) :
    runsOf (l.map (fun a => Ev.progress (g a))) = [] := by
  induction l with
  | nil => rfl
  | cons a t ih =>
    rw [List.map_cons,
      show (Ev.progress (g a) :: t.map (fun a => Ev.progress (g a))) =
        [Ev.progress (g a)] ++ t.map (fun a => Ev.progress (g a)) from rfl,
      runsOf_append, ih]
    rfl

theorem runsOf_map_create {α : Type} (g : α → TmpPath) (l : List α) :
    runsOf (l.map (fun a => Ev.create (g a))) = [] := by
  induction l with
  | nil => rfl
  | cons a t ih =>
    rw [List.map_cons,
      show (Ev.create (g a) :: t.map (fun a => Ev.create (g a))) =
        [Ev.create (g a)] ++ t.map (fun a => Ev.create (g a)) from rfl,
      runsOf_append, ih]
    rfl

theorem runsOf_map_delete {α : Type} (g : α → TmpPath) (l : List α) :
    runsOf (l.map (fun a => Ev.delete (g a))) = [] := by
  induction l with
  | nil => rfl
  | cons a t ih =>
    rw [List.map_cons,
      show (Ev.delete (g a) :: t.map (fun a => Ev.delete (g a))) =
        [Ev.delete (g a)] ++ t.map (fun a => Ev.delete (g a)) from rfl,
      runsOf_append, ih]
    rfl

theorem progsOf_map_create {α : Type} (g : α → TmpPath) (l : List α) :
    progsOf (l.map (fun a => Ev.create (g a))) = [] := by
  induction l with
  | nil => rfl
  | cons a t ih =>
    rw [List.map_cons,
      show (Ev.create (g a) :: t.map (fun a => Ev.create (g a))) =
        [Ev.create (g a)] ++ t.map (fun a => Ev.create (g a)) from rfl,
      progsOf_append, ih]
    rfl

theorem progsOf_map_delete {α : Type} (g : α → TmpPath) (l : List α) :
    progsOf (l.map (fun a => Ev.delete (g a))) = [] := by
  induction l with
  | nil => rfl
  | cons a t ih =>
    rw [List.map_cons,
      show (Ev.delete (g a) :: t.map (fun a => Ev.delete (g a))) =
        [Ev.delete (g a)] ++ t.map (fun a => Ev.delete (g a)) from rfl,
      progsOf_append, ih]
    rfl

theorem runBatchesGo_noFail (env : JobEnv)
    (hb : ∀ k, env.batchFails k = false) (w : ℚ) :
    ∀ (r k : Nat),
      (runBatchesGo env w k r).2 = none ∧
      runsOf (runBatchesGo env w k r).1 =
        (List.range' k r).map (fun j =>
          ((if j = 0 then TmpPath.input else TmpPath.batch (j - 1)),
            TmpPath.batch j)) := by
  intro r
  induction r with
  | zero =>
    intro k
    exact ⟨rfl, rfl⟩
  | succ r ih =>
    intro k
    have hstep : runBatchesGo env w k (r + 1) =
        ([Ev.create (TmpPath.batch k),
          Ev.ffmpegRun (if k = 0 then TmpPath.input else TmpPath.batch (k - 1))
            (TmpPath.batch k)] ++
          (((env.batchProgress k).filter
              (fun p => decide (p ≠ 0) && decide (0 ≤ p))).map
            (fun p => Ev.progress (min 100 ((k : ℚ) * w + p * (w / 100))))) ++
          (if k = 0 then [] else [Ev.delete (TmpPath.batch (k - 1))]) ++
          (runBatchesGo env w (k + 1) r).1,
         (runBatchesGo env w (k + 1) r).2) := by
      simp only [runBatchesGo, hb k, Bool.false_eq_true, if_false]
    refine ⟨by rw [hstep]; exact (ih (k + 1)).1, ?_⟩
    have eprog : runsOf (((env.batchProgress k).filter
        (fun p => decide (p ≠ 0) && decide (0 ≤ p))).map
          (fun p => Ev.progress (min 100 ((k : ℚ) * w + p * (w / 100))))) =
        [] := runsOf_map_progress _ _
    have ecl : runsOf (if k = 0 then []
        else [Ev.delete (TmpPath.batch (k - 1))]) = [] := by
      by_cases hk : k = 0
      · rw [if_pos hk]; rfl
      · rw [if_neg hk]; rfl
    rw [hstep]
    simp only [runsOf_append]
    rw [show runsOf [Ev.create (TmpPath.batch k),
        Ev.ffmpegRun (if k = 0 then TmpPath.input else TmpPath.batch (k - 1))
          (TmpPath.batch k)] =
      [((if k = 0 then TmpPath.input else TmpPath.batch (k - 1)),
        TmpPath.batch k)] from rfl]
    rw [eprog, ecl, (ih (k + 1)).2, List.range'_succ]
    simp

/-- Claim C7: with batch size 200, a fault-free job with `M > 0` expanded
sub-cues runs exactly `ceil(M/200)` ffmpeg batches, strictly in order,
batch 0 reading the input video copy and batch k > 0 reading batch k-1's
output; each batch weighs `100 / ceil(M/200)` so the weights sum to
exactly 100, and the last progress value reported on success is
exactly 100. -/
theorem batchScheduler_spec (env : JobEnv) (subs : List Subtitle)
    (style : SubtitleStyle)
    (hpng : ∀ i, env.pngFails i = false)
    (hb : ∀ k, env.batchFails k = false)
    (hM : (expandedSubs subs (style.effectType.getD "none")).length ≠ 0) :
    BATCH_SIZE = 200 ∧
    (processVideoExport env subs style).2 = true ∧
    runsOf (processVideoExport env subs style).1 =
      (List.range (totalBatchesOf
          (expandedSubs subs (style.effectType.getD "none")).length)).map
        (fun k => ((if k = 0 then TmpPath.input else TmpPath.batch (k - 1)),
          TmpPath.batch k)) ∧
    (runsOf (processVideoExport env subs style).1).length =
      totalBatchesOf (expandedSubs subs (style.effectType.getD "none")).length ∧
    (List.replicate
        (totalBatchesOf (expandedSubs subs (style.effectType.getD "none")).length)
        ((100 : ℚ) / (totalBatchesOf
          (expandedSubs subs (style.effectType.getD "none")).length : ℚ))).sum =
      100 ∧
    (progsOf (processVideoExport env subs style).1).getLast? = some 100 := by
  set N := (expandedSubs subs (style.effectType.getD "none")).length with hN
  have htotpos : 0 < totalBatchesOf N := by
    rw [totalBatchesOf]
    apply Nat.div_pos ?_ (by rw [BATCH_SIZE]; omega)
    rw [BATCH_SIZE]
    omega
  have htotQ : ((totalBatchesOf N : ℚ)) ≠ 0 :=
    Nat.cast_ne_zero.mpr (Nat.pos_iff_ne_zero.mp htotpos)
  have hpa : (List.range N).all (fun i => !env.pngFails i) = true := by
    rw [List.all_eq_true]
    intro i _
    rw [hpng i]
    rfl
  have hrun := runBatchesGo_noFail env hb
    (100 / (totalBatchesOf N : ℚ)) (totalBatchesOf N) 0
  have hPE : processVideoExport env subs style =
      ((Ev.create TmpPath.input :: Ev.progress 0 ::
          (List.range N).filterMap (fun i =>
            if env.pngFails i then none
            else some (Ev.create (TmpPath.png i)))) ++
        (runBatchesGo env (100 / (totalBatchesOf N : ℚ)) 0
          (totalBatchesOf N)).1 ++
        [Ev.progress 100] ++
        (Ev.delete TmpPath.input ::
          (((match (if totalBatchesOf N = 0 then none
              else some (totalBatchesOf N - 1) : Option Nat) with
             | some j => [Ev.delete (TmpPath.batch j)]
             | none => []) : List Ev) ++
           (List.range N).map (fun i => Ev.delete (TmpPath.png i)))),
       true) := by
    rw [processVideoExport]
    simp only [← hN, hpa, Bool.not_true, Bool.false_eq_true, if_false,
      hrun.1, Option.isNone_none, if_true]
  have hpngCreates : (List.range N).filterMap (fun i =>
      if env.pngFails i then none
      else some (Ev.create (TmpPath.png i))) =
      (List.range N).map (fun i => Ev.create (TmpPath.png i)) := by
    rw [show (fun i => if env.pngFails i then none
        else some (Ev.create (TmpPath.png i))) =
      (fun i => some (Ev.create (TmpPath.png i))) from
        funext (fun i => by rw [hpng i]; rfl)]
    exact filterMap_some_comp _ _
  have ebase : runsOf (Ev.create TmpPath.input :: Ev.progress 0 ::
      (List.range N).filterMap (fun i =>
        if env.pngFails i then none
        else some (Ev.create (TmpPath.png i)))) = [] := by
    rw [show runsOf (Ev.create TmpPath.input :: Ev.progress 0 ::
        (List.range N).filterMap (fun i =>
          if env.pngFails i then none
          else some (Ev.create (TmpPath.png i)))) =
      runsOf ((List.range N).filterMap (fun i =>
          if env.pngFails i then none
          else some (Ev.create (TmpPath.png i)))) from rfl]
    rw [hpngCreates]
    exact runsOf_map_create _ _
  have efin : runsOf (Ev.delete TmpPath.input ::
      (((match (if totalBatchesOf N = 0 then none
          else some (totalBatchesOf N - 1) : Option Nat) with
         | some j => [Ev.delete (TmpPath.batch j)]
         | none => []) : List Ev) ++
       (List.range N).map (fun i => Ev.delete (TmpPath.png i)))) = [] := by
    rw [show runsOf (Ev.delete TmpPath.input ::
        (((match (if totalBatchesOf N = 0 then none
            else some (totalBatchesOf N - 1) : Option Nat) with
           | some j => [Ev.delete (TmpPath.batch j)]
           | none => []) : List Ev) ++
         (List.range N).map (fun i => Ev.delete (TmpPath.png i)))) =
      runsOf ((((match (if totalBatchesOf N = 0 then none
            else some (totalBatchesOf N - 1) : Option Nat) with
           | some j => [Ev.delete (TmpPath.batch j)]
           | none => []) : List Ev) ++
         (List.range N).map (fun i => Ev.delete (TmpPath.png i)))) from rfl]
    rw [runsOf_append, runsOf_deleteOpt, runsOf_map_delete]
    rfl
  have hruns : runsOf (processVideoExport env subs style).1 =
      (List.range (totalBatchesOf N)).map
        (fun k => ((if k = 0 then TmpPath.input else TmpPath.batch (k - 1)),
          TmpPath.batch k)) := by
    rw [hPE]
    simp only [runsOf_append]
    rw [ebase, hrun.2, efin]
    rw [show runsOf [Ev.progress 100] = [] from rfl]
    rw [List.range_eq_range']
    simp
  refine ⟨rfl, ?_, hruns, ?_, ?_, ?_⟩
  · rw [hPE]
  · rw [hruns, List.length_map, List.length_range]
  · rw [List.sum_replicate, nsmul_eq_mul, mul_comm, div_mul_cancel₀ _ htotQ]
  · have pbase : progsOf (Ev.create TmpPath.input :: Ev.progress 0 ::
        (List.range N).filterMap (fun i =>
          if env.pngFails i then none
          else some (Ev.create (TmpPath.png i)))) = [0] := by
      rw [show progsOf (Ev.create TmpPath.input :: Ev.progress 0 ::
          (List.range N).filterMap (fun i =>
            if env.pngFails i then none
            else some (Ev.create (TmpPath.png i)))) =
        0 :: progsOf ((List.range N).filterMap (fun i =>
            if env.pngFails i then none
            else some (Ev.create (TmpPath.png i)))) from rfl]
      rw [hpngCreates, progsOf_map_create]
    have pfin : progsOf (Ev.delete TmpPath.input ::
        (((match (if totalBatchesOf N = 0 then none
            else some (totalBatchesOf N - 1) : Option Nat) with
           | some j => [Ev.delete (TmpPath.batch j)]
           | none => []) : List Ev) ++
         (List.range N).map (fun i => Ev.delete (TmpPath.png i)))) = [] := by
      rw [show progsOf (Ev.delete TmpPath.input ::
          (((match (if totalBatchesOf N = 0 then none
              else some (totalBatchesOf N - 1) : Option Nat) with
             | some j => [Ev.delete (TmpPath.batch j)]
             | none => []) : List Ev) ++
           (List.range N).map (fun i => Ev.delete (TmpPath.png i)))) =
        progsOf ((((match (if totalBatchesOf N = 0 then none
              else some (totalBatchesOf N - 1) : Option Nat) with
             | some j => [Ev.delete (TmpPath.batch j)]
             | none => []) : List Ev) ++
           (List.range N).map (fun i => Ev.delete (TmpPath.png i)))) from rfl]
      rw [progsOf_append, progsOf_deleteOpt, progsOf_map_delete]
      rfl
    rw [hPE]
    simp only [progsOf_append]
    rw [pbase, pfin]
    rw [show progsOf [Ev.progress 100] = [100] from rfl]
    rw [List.append_nil, List.getLast?_concat]

theorem batchScheduler_spec_witness :
    (processVideoExport env0 subsC3 styleBottom).2 = true :=
  (batchScheduler_spec env0 subsC3 styleBottom (fun _ => rfl) (fun _ => rfl)
    (by decide)).2.1

/-- Claim C9 witness: a one-cue, one-path job at batch offset 0. -/
theorem worker_batch_lengths_match_witness :
    buildOk (buildOverlayFilterComplex fmtEx
      (((expandedSubs subsC3 "none").drop 0).take BATCH_SIZE)
      (((["p", "q"] : List String).drop 0).take BATCH_SIZE) styleBottom
      1280 720) = true :=
  (worker_batch_lengths_match fmtEx subsC3 "none" ["p", "q"] styleBottom
    1280 720 (by decide) 0).2

end SwissSubtitles

